import Mathlib

/-!
Verification of the content-loading, caching, sorting and date-formatting
layer of the `dbolivar25/personal-site` repository.

Text is modelled as its character sequence (`List Char`); a file's text is
modelled pre-split into lines (`List (List Char)`), since every operation of
the frontmatter pipeline is line-oriented.  Machine integers are `Nat`/`Int`
(JavaScript numbers are exact integers in every computation modelled here).
Fallible code returns `Except`/`Option`; mutable module state (the caches) is
passed explicitly; the current wall-clock time is an explicit parameter.
-/

namespace PersonalSite

/-! ## Character-list primitives -/

/-- The single-quote character (written by code point to keep sources plain). -/
def squoteChar : Char := Char.ofNat 39

/-- Strip leading and trailing whitespace from a character list
(the semantics of JavaScript `String.prototype.trim` / YAML scalar trimming). -/
def trimChars (l : List Char) : List Char :=
  ((l.dropWhile Char.isWhitespace).reverse.dropWhile Char.isWhitespace).reverse

/-- Split a character list at the first occurrence of `sep` (a non-empty
separator), returning the part before and the part after; `none` when `sep`
does not occur. -/
def splitFirstOn (sep : List Char) : List Char → Option (List Char × List Char)
  | [] => none
  | c :: rest =>
    if sep.isPrefixOf (c :: rest) then some ([], (c :: rest).drop sep.length)
    else match splitFirstOn sep rest with
      | some (a, b) => some (c :: a, b)
      | none => none

/-- Split a character list on every occurrence of the character `sep`
(the semantics of JavaScript `String.prototype.split` with a one-character
separator: `splitOnChar sep []` is `[[]]`). -/
def splitOnChar (sep : Char) (l : List Char) : List (List Char) :=
  l.foldr (fun c acc =>
    match acc with
    | [] => [[c]]
    | a :: rest => if c = sep then [] :: a :: rest else (c :: a) :: rest) [[]]

/-- Read a character list as a base-10 natural number; `none` unless it is a
non-empty all-digit sequence. -/
def charsToNat? (l : List Char) : Option Nat :=
  if l.isEmpty then none
  else if l.all Char.isDigit then
    some (l.foldl (fun n c => n * 10 + (c.toNat - 48)) 0)
  else none

/-- Read a character list as a base-10 integer with an optional leading minus
sign. -/
def charsToInt? (l : List Char) : Option Int :=
  match l with
  | '-' :: rest => (charsToNat? rest).map (fun n => -(n : Int))
  | _ => (charsToNat? l).map (fun n => (n : Int))

/-- Join lines back into a single text with newline separators. -/
def joinLines (ls : List (List Char)) : List Char :=
  List.intercalate ['\n'] ls

/-! ## YAML scalar values

`parseFrontmatter` (app/portfolio/utils.ts) delegates frontmatter extraction
to the `gray-matter` package, whose default engine is js-yaml 3's safe
schema: quoted scalars are strings with the quotes removed, and unquoted
scalars resolve to null (`~`/`null`/`Null`/`NULL`/empty), boolean
(`true`/`True`/`TRUE`, `false`/`False`/`FALSE`) or number when their trimmed
text matches those forms, otherwise to the trimmed string.  The model below
represents exactly the forms this repository's frontmatter uses: single-line
`key: value` scalar lines, blank lines and comment lines, with quoted
strings, plain strings, the null/boolean spellings and plain decimal
integers.  Engine behaviour the model does NOT represent — timestamp-form
scalars (unquoted `YYYY-MM-DD`, which js-yaml materialises as a `Date`
object), floats, hex/octal/binary/underscored/sexagesimal integers,
multi-line folded scalars, escape sequences inside quotes, and the syntax
errors js-yaml throws on a plain value containing `": "`, an unclosed
quote, or tab indentation — is fenced off by the decidable well-formedness
predicates `yamlLineOk`/`wellFormedYaml`/`stringValueOk` below: every
theorem whose truth depends on scalar resolution carries such a hypothesis,
confining its statement to inputs on which the model and the engine agree. -/

/-- A YAML scalar value as materialised into the JavaScript metadata object. -/
inductive YamlValue where
  | str (s : List Char)
  | num (n : Int)
  | boolean (b : Bool)
  | null
deriving DecidableEq, Repr

/-- Is `w` wrapped in the quote character `q` (length at least 2, first and
last character both `q`)? -/
def isQuotedBy (q : Char) (w : List Char) : Bool :=
  decide (2 ≤ w.length) && (w.head? == some q) && (w.getLast? == some q)

/-- Is `w` wrapped in matching single or double quotes? -/
def isQuoted (w : List Char) : Bool :=
  isQuotedBy '"' w || isQuotedBy squoteChar w

/-- Remove one layer of matching surrounding quotes, when present. -/
def stripQuotes (w : List Char) : List Char :=
  if isQuoted w then (w.drop 1).dropLast else w

/-- The null spellings of js-yaml's safe schema. -/
def nullSpelling (w : List Char) : Bool :=
  w == ['~'] || w == "null".toList || w == "Null".toList || w == "NULL".toList

/-- The true spellings of js-yaml's safe schema. -/
def trueSpelling (w : List Char) : Bool :=
  w == "true".toList || w == "True".toList || w == "TRUE".toList

/-- The false spellings of js-yaml's safe schema. -/
def falseSpelling (w : List Char) : Bool :=
  w == "false".toList || w == "False".toList || w == "FALSE".toList

/-- Resolve one raw scalar text to a `YamlValue` (trim, then quoted string /
null / boolean / integer / plain string, in that order; see the section
comment for the engine forms outside this model). -/
def yamlScalar (raw : List Char) : YamlValue :=
  let w := trimChars raw
  if isQuoted w then .str (stripQuotes w)
  else if w.isEmpty || nullSpelling w then .null
  else if trueSpelling w then .boolean true
  else if falseSpelling w then .boolean false
  else
    match charsToInt? w with
    | some n => .num n
    | none => .str w

/-- JavaScript truthiness of a materialised YAML value (`!value` negated):
`""`, `0`, `false` and `null` are falsy. -/
def YamlValue.truthy : YamlValue → Bool
  | .str s => !s.isEmpty
  | .num n => n != 0
  | .boolean b => b
  | .null => false

/-! ## The metadata object -/

/-- The runtime metadata object produced by gray-matter: an open field set
from key text to scalar value (the TypeScript `ProjectMetadata` interface is
an unchecked cast over this object). -/
abbrev Metadata := List (List Char × YamlValue)

/-- Overwrite-or-add a key binding (JavaScript object property assignment). -/
def mapSet (m : Metadata) (k : List Char) (v : YamlValue) : Metadata :=
  m.filter (fun e => e.1 ≠ k) ++ [(k, v)]

/-- Property lookup; `none` is JavaScript `undefined`. -/
def mapGet (m : Metadata) (k : List Char) : Option YamlValue :=
  (m.find? (fun e => e.1 == k)).map (·.2)

/-- Property lookup where a missing property behaves like a falsy value
(JavaScript `undefined` is falsy, as is YAML `null`). -/
def mapGetD (m : Metadata) (k : List Char) : YamlValue :=
  (mapGet m k).getD .null

/-! ## Frontmatter extraction (gray-matter) and `parseFrontmatter` -/

/-- Split a line sequence at the first `---` line: the lines strictly before
it and the lines strictly after it; `none` when no `---` line occurs. -/
def splitAtDelim : List (List Char) → Option (List (List Char) × List (List Char))
  | [] => none
  | l :: rest =>
    if l = "---".toList then some ([], rest)
    else match splitAtDelim rest with
      | some (a, b) => some (l :: a, b)
      | none => none

/-- Is the line a full-line YAML comment (first character after any leading
spaces is `#`)?  js-yaml ignores such lines. -/
def isCommentLine (line : List Char) : Bool :=
  (line.dropWhile (fun c => c == ' ')).head? == some '#'

/-- Parse the lines of a frontmatter block as `key: value` scalars.  Comment
lines are ignored, as are lines without a `": "` separator (blank lines in
particular); on well-formed blocks (`yamlLineOk` below) these are the only
line forms. -/
def parseYamlLines (lines : List (List Char)) : Metadata :=
  lines.foldl (fun acc line =>
    if isCommentLine line then acc
    else
      match splitFirstOn (':' :: [' ']) line with
      | some (k, v) => mapSet acc (trimChars k) (yamlScalar v)
      | none => acc) []

/-- Result of frontmatter extraction: the metadata object and the content
lines that follow the header block. -/
structure MatterResult where
  data : Metadata
  content : List (List Char)
deriving DecidableEq, Repr

/-- The `matter` function of the gray-matter package, at line granularity:
if the first line is the `---` delimiter, the lines up to the next `---`
line are the frontmatter block and the lines after it are the content; when
no closing delimiter exists the whole remainder is read as frontmatter and
the content is empty; when the text does not begin with the delimiter there
is no frontmatter and the whole text is content. -/
def matter (lines : List (List Char)) : MatterResult :=
  match lines with
  | first :: rest =>
    if first = "---".toList then
      match splitAtDelim rest with
      | some (fm, contentLines) => ⟨parseYamlLines fm, contentLines⟩
      | none => ⟨parseYamlLines rest, []⟩
    else ⟨[], lines⟩
  | [] => ⟨[], []⟩

/-- A successfully parsed MDX document: metadata object and content text. -/
structure ParsedMDX where
  metadata : Metadata
  content : List Char
deriving DecidableEq, Repr

/-- `parseFrontmatter` (app/portfolio/utils.ts:28): run gray-matter, then
throw `MDXParseError` unless `data.title`, `data.publishedAt` and
`data.summary` are all truthy. -/
def parseFrontmatter (fileLines : List (List Char)) : Except String ParsedMDX :=
  let r := matter fileLines
  if !(mapGetD r.data "title".toList).truthy
      || !(mapGetD r.data "publishedAt".toList).truthy
      || !(mapGetD r.data "summary".toList).truthy then
    .error "Failed to parse frontmatter: Missing required frontmatter fields (title, publishedAt, or summary)"
  else
    .ok ⟨r.data, joinLines r.content⟩

/-! ## Well-formed frontmatter: the domain on which the model speaks for
the engine

The predicates below delimit the single-line scalar forms on which the
model's `matter`/`parseYamlLines`/`yamlScalar` agree with
gray-matter + js-yaml 3: alphanumeric keys at column zero, values that are
safely quoted strings, letter-initial plain strings, null/boolean
spellings, or plain decimal integers.  Everything js-yaml handles
differently — timestamp/float/hex/octal/underscored/sexagesimal scalars,
values with an embedded `": "` or an unclosed quote (engine syntax errors,
which the code wraps in `MDXParseError`), inline comments, tabs, and
multi-line scalars — fails these predicates, so theorems hypothesised on
them never speak about those inputs. -/

/-- Characters allowed in a plain (unquoted) string scalar: letters,
digits, `-` and spaces.  This excludes `:` (mapping/sexagesimal forms), `#`
(inline comments), quotes, tabs and every YAML indicator character. -/
def plainCharOk (c : Char) : Bool :=
  c.isAlphanum || c == '-' || c == ' '

/-- Characters allowed inside a quoted scalar in the model: additionally
`:`, `.`, `,`, `/`, `!` and `?`, but no quote characters and no backslash
(so neither escape sequences nor early termination can occur). -/
def quotedInnerOk (c : Char) : Bool :=
  c.isAlphanum || c == '-' || c == ' ' || c == ':' || c == '.' || c == ',' ||
    c == '/' || c == '!' || c == '?'

/-- A quoted string scalar the engine reads verbatim: matching surrounding
quotes with only safe characters inside. -/
def quotedStrOk (w : List Char) : Bool :=
  isQuoted w && ((w.drop 1).dropLast).all quotedInnerOk

/-- A plain scalar the engine resolves to a string: letter-initial, safe
characters only, and none of the null/boolean spellings.  (Letter-initial
excludes every numeric, timestamp, float and `.inf`/`.nan` form.  The
final three conjuncts are consequences of the first two spelled out so
that proofs can use them directly.) -/
def plainStringOk (w : List Char) : Bool :=
  (match w.head? with
   | some c => c.isAlpha
   | none => false) &&
  w.all plainCharOk &&
  !nullSpelling w && !trueSpelling w && !falseSpelling w &&
  !isQuoted w && (charsToInt? w).isNone

/-- A plain decimal integer the engine and `charsToInt?` read identically:
`0`, or a nonzero-leading digit run, with an optional minus sign (leading
zeros would be octal to js-yaml, underscores/hex/binary are excluded). -/
def decNatOk (w : List Char) : Bool :=
  w == ['0'] || (!w.isEmpty && w.all Char.isDigit && !(w.head? == some '0'))

/-- Integer form with optional sign. -/
def decIntOk (w : List Char) : Bool :=
  match w with
  | '-' :: rest => decNatOk rest
  | _ => decNatOk w

/-- An alphanumeric, letter-initial key at column zero — js-yaml reads it
as exactly this string. -/
def keyOk (k : List Char) : Bool :=
  (match k.head? with
   | some c => c.isAlpha
   | none => false) &&
  k.all Char.isAlphanum

/-- A raw value text (the text after the first `": "`) the engine resolves
as this model does: empty/null, boolean, plain decimal integer, safely
quoted string, or plain string. -/
def valueOk (v : List Char) : Bool :=
  (trimChars v).isEmpty || nullSpelling (trimChars v) ||
  trueSpelling (trimChars v) || falseSpelling (trimChars v) ||
  decIntOk (trimChars v) || quotedStrOk (trimChars v) ||
  plainStringOk (trimChars v)

/-- A frontmatter line the model reads as the engine does: blank, a
full-line comment, or a simple `key: value` scalar line. -/
def yamlLineOk (line : List Char) : Bool :=
  (trimChars line).isEmpty || isCommentLine line ||
  (match splitFirstOn (':' :: [' ']) line with
   | some (k, v) => keyOk k && valueOk v
   | none => false)

/-- The frontmatter block `matter` extracts from a file (empty when the
file does not open with the delimiter). -/
def fmLinesOf (lines : List (List Char)) : List (List Char) :=
  match lines with
  | first :: rest =>
    if first = "---".toList then
      match splitAtDelim rest with
      | some (fm, _) => fm
      | none => rest
    else []
  | [] => []

/-- Every extracted frontmatter line is a form the model reads as the
engine does.  On such files, `parseFrontmatter` above computes what the
code computes — in particular the engine throws no syntax error. -/
def wellFormedYaml (lines : List (List Char)) : Bool :=
  (fmLinesOf lines).all yamlLineOk

/-! ## File system and content loader (app/portfolio/utils.ts) -/

/-- The synchronous file-system operations the loader uses.  `readdir`
returns `none` when directory enumeration throws; `readFile` returns `none`
when reading throws.  File text is represented pre-split into lines. -/
structure FileSystem where
  readdir : List Char → Option (List (List Char))
  readFile : List Char → Option (List (List Char))

/-- `path.extname`: the suffix of the file name from its last dot; empty for
names without a dot and for dot-files such as `.mdx`. -/
def extname (f : List Char) : List Char :=
  match splitOnChar '.' f with
  | [] => []
  | [_] => []
  | [[], _] => []
  | parts => '.' :: parts.getLastD []

/-- `path.basename(file, ext)`: drop the given suffix when present.  The
file names reaching this function carry no directory separators. -/
def basenameDrop (f ext : List Char) : List Char :=
  if ext.isSuffixOf f then f.take (f.length - ext.length) else f

/-- `path.join(dir, file)` for a plain directory and file name. -/
def pathJoin (dir file : List Char) : List Char :=
  dir ++ '/' :: file

/-- `getMDXFiles` (app/portfolio/utils.ts:53): list the directory and keep
the `.mdx` entries; a directory-read failure is logged and yields `[]`. -/
def getMDXFiles (fs : FileSystem) (dir : List Char) : List (List Char) :=
  match fs.readdir dir with
  | none => []
  | some files => files.filter (fun f => extname f == ".mdx".toList)

/-- `readMDXFile` (app/portfolio/utils.ts:65): read the file text and parse
its frontmatter; an I/O failure or a parse failure is an error. -/
def readMDXFile (fs : FileSystem) (filePath : List Char) : Except String ParsedMDX :=
  match fs.readFile filePath with
  | none => .error "Failed to read MDX file"
  | some raw => parseFrontmatter raw

/-- A loaded content record (`ProjectData` in app/portfolio/utils.ts). -/
structure ProjectData where
  metadata : Metadata
  slug : List Char
  content : List Char
deriving DecidableEq, Repr

/-- The record `getMDXData` pushes for one file when its load succeeds;
`none` when reading or parsing the file fails. -/
def loadOne (fs : FileSystem) (dir file : List Char) : Option ProjectData :=
  match readMDXFile fs (pathJoin dir file) with
  | .ok parsed => some ⟨parsed.metadata, basenameDrop file (extname file), parsed.content⟩
  | .error _ => none

/-- `getMDXData` (app/portfolio/utils.ts:85): iterate over the `.mdx` files,
pushing each successfully loaded record and logging-and-skipping each file
whose read or parse fails. -/
def getMDXData (fs : FileSystem) (dir : List Char) : List ProjectData :=
  (getMDXFiles fs dir).foldl (fun validProjects file =>
    match readMDXFile fs (pathJoin dir file) with
    | .ok parsed =>
        validProjects ++ [⟨parsed.metadata, basenameDrop file (extname file), parsed.content⟩]
    | .error _ => validProjects) []

/-- `getProjects` (app/portfolio/utils.ts:117): load the records of the
`app/portfolio/projects` directory. -/
def getProjects (fs : FileSystem) : List ProjectData :=
  getMDXData fs "app/portfolio/projects".toList

/-- The slug lookup inside `getProjectBySlug`:
`projects.find((p) => p.slug === slug)`, with `undefined` mapped to `null`. -/
def findProjectBySlug (projects : List ProjectData) (slug : List Char) : Option ProjectData :=
  projects.find? (fun p => p.slug == slug)

/-- `getProjectBySlug` (app/portfolio/utils.ts:129). -/
def getProjectBySlug (fs : FileSystem) (slug : List Char) : Option ProjectData :=
  findProjectBySlug (getProjects fs) slug

/-! ## The TTL cache (app/lib/cache.ts) -/

/-- One stored cache entry: the data and the epoch-milliseconds timestamp
recorded by `set`. -/
structure CacheEntry (α : Type) where
  data : α
  timestamp : Nat
deriving DecidableEq, Repr

/-- The state of one `Cache` instance: its entry map and its fixed TTL in
milliseconds.  The JavaScript `Map` is modelled as an association list with
overwrite-on-set semantics. -/
structure CacheState (α : Type) where
  entries : List (List Char × CacheEntry α)
  ttl : Nat
deriving DecidableEq, Repr

/-- A fresh cache as built by the `Cache` constructor. -/
def CacheState.mk0 (α : Type) (ttl : Nat) : CacheState α :=
  ⟨[], ttl⟩

/-- Raw `Map.get` on the underlying entry map, ignoring expiry. -/
def CacheState.rawGet {α : Type} (c : CacheState α) (key : List Char) : Option (CacheEntry α) :=
  (c.entries.find? (fun e => e.1 == key)).map (·.2)

/-- `Cache.get` at current time `now`: a missing key yields `undefined`; an
entry older than the TTL is deleted and yields `undefined`; otherwise the
stored data is returned.  The possibly mutated state is returned alongside. -/
def CacheState.get {α : Type} (c : CacheState α) (key : List Char) (now : Nat) :
    Option α × CacheState α :=
  match c.rawGet key with
  | none => (none, c)
  | some item =>
    if now - item.timestamp > c.ttl then
      (none, ⟨c.entries.filter (fun e => e.1 ≠ key), c.ttl⟩)
    else (some item.data, c)

/-- `Cache.set`: store the data under the key with the current timestamp. -/
def CacheState.set {α : Type} (c : CacheState α) (key : List Char) (data : α) (now : Nat) :
    CacheState α :=
  ⟨(key, ⟨data, now⟩) :: c.entries.filter (fun e => e.1 ≠ key), c.ttl⟩

/-- `Cache.delete`: remove the key's entry. -/
def CacheState.del {α : Type} (c : CacheState α) (key : List Char) : CacheState α :=
  ⟨c.entries.filter (fun e => e.1 ≠ key), c.ttl⟩

/-- `Cache.clear`: remove every entry. -/
def CacheState.clear {α : Type} (c : CacheState α) : CacheState α :=
  ⟨[], c.ttl⟩

/-! ## The content service (app/lib/mdx/cache layer, src/unnamed/part_005) -/

/-- `MDX_CACHE_TTL`: five minutes in milliseconds. -/
def MDX_CACHE_TTL : Nat := 1000 * 60 * 5

/-- `PROJECTS_CACHE_KEY`. -/
def PROJECTS_CACHE_KEY : List Char := "all-projects".toList

/-- `PROJECT_BY_SLUG_KEY_PREFIX` followed by a slug. -/
def projectBySlugKey (slug : List Char) : List Char :=
  "project-by-slug:".toList ++ slug

/-- The two module-level cache singletons, as constructed at module load. -/
def projectsCache0 : CacheState (List ProjectData) := CacheState.mk0 _ MDX_CACHE_TTL

/-- The by-slug cache singleton at module load. -/
def projectBySlugCache0 : CacheState (Option ProjectData) := CacheState.mk0 _ MDX_CACHE_TTL

/-- `getCachedProjects` (src/unnamed/part_005:19): cache-aside over the
`all-projects` key.  `fetch` is the loader's result; the third component
counts how many times `fetchFn` was invoked (an array, even empty, is truthy
in JavaScript, so any cached value counts as a hit). -/
def getCachedProjects (c : CacheState (List ProjectData)) (now : Nat)
    (fetch : List ProjectData) :
    List ProjectData × CacheState (List ProjectData) × Nat :=
  match c.get PROJECTS_CACHE_KEY now with
  | (some cachedProjects, c1) => (cachedProjects, c1, 0)
  | (none, c1) =>
    let projects := fetch
    (projects, c1.set PROJECTS_CACHE_KEY projects now, 1)

/-- `getCachedProjectBySlug` (src/unnamed/part_005:40): cache-aside over the
by-slug key; the guard is `!== undefined`, so a cached `null` is a hit.  The
third component counts `fetchFn` invocations. -/
def getCachedProjectBySlug (c : CacheState (Option ProjectData)) (now : Nat)
    (slug : List Char) (fetch : Option ProjectData) :
    Option ProjectData × CacheState (Option ProjectData) × Nat :=
  match c.get (projectBySlugKey slug) now with
  | (some cachedProject, c1) => (cachedProject, c1, 0)
  | (none, c1) =>
    let project := fetch
    (project, c1.set (projectBySlugKey slug) project now, 1)

/-- `invalidateCaches` (src/unnamed/part_005:65): clear both caches. -/
def invalidateCaches (pc : CacheState (List ProjectData))
    (bc : CacheState (Option ProjectData)) :
    CacheState (List ProjectData) × CacheState (Option ProjectData) :=
  (pc.clear, bc.clear)

/-- `invalidateProjectCache` (src/unnamed/part_005:74): delete the slug's
by-slug entry and the `all-projects` entry. -/
def invalidateProjectCache (pc : CacheState (List ProjectData))
    (bc : CacheState (Option ProjectData)) (slug : List Char) :
    CacheState (List ProjectData) × CacheState (Option ProjectData) :=
  (pc.del PROJECTS_CACHE_KEY, bc.del (projectBySlugKey slug))

/-! ## Dates

`formatDate` (app/portfolio/utils.ts:143) builds a `Date` from the input
string — appending `T00:00:00` when the string has no `T` — reads its
calendar fields, and formats.  The model parses ISO `YYYY-MM-DD` date parts
with an `HH:MM:SS` time part, the forms V8 parses field-for-field as local
time (V8 rejects out-of-range calendar days in ISO strings); any other input
is an invalid date.  The current moment is the explicit `now` parameter
(what `new Date()` provides via `getFullYear`/`getMonth`/`getDate`). -/

/-- A calendar date: year, month (1–12), day (1–31). -/
structure YMD where
  year : Nat
  month : Nat
  day : Nat
deriving DecidableEq, Repr

/-- Gregorian leap year. -/
def isLeapYear (y : Nat) : Bool :=
  y % 4 = 0 && (y % 100 ≠ 0 || y % 400 = 0)

/-- Days in a month of a year. -/
def daysInMonth (y m : Nat) : Nat :=
  if m = 2 then (if isLeapYear y then 29 else 28)
  else if m = 4 ∨ m = 6 ∨ m = 9 ∨ m = 11 then 30
  else 31

/-- Parse an ISO `YYYY-MM-DD` date part, rejecting out-of-range months and
days. -/
def parseYMDChars (l : List Char) : Option YMD :=
  match splitOnChar '-' l with
  | [ys, ms, ds] =>
    if ys.length = 4 ∧ ms.length = 2 ∧ ds.length = 2 then
      match charsToNat? ys, charsToNat? ms, charsToNat? ds with
      | some y, some m, some d =>
        if 1 ≤ m ∧ m ≤ 12 ∧ 1 ≤ d ∧ d ≤ daysInMonth y m then some ⟨y, m, d⟩
        else none
      | _, _, _ => none
    else none
  | _ => none

/-- Is `l` a valid `HH:MM:SS` time part? -/
def validTimeChars (l : List Char) : Bool :=
  match splitOnChar ':' l with
  | [hs, ms, ss] =>
    decide (hs.length = 2 ∧ ms.length = 2 ∧ ss.length = 2) &&
    (match charsToNat? hs, charsToNat? ms, charsToNat? ss with
     | some h, some m, some s => decide (h < 24 ∧ m < 60 ∧ s < 60)
     | _, _, _ => false)
  | _ => false

/-- Parse an ISO date-time: the part before the first `T` as the date, the
part after it as the time. -/
def parseDateTimeChars (l : List Char) : Option YMD :=
  match splitFirstOn ['T'] l with
  | some (datePart, timePart) =>
    if validTimeChars timePart then parseYMDChars datePart else none
  | none => parseYMDChars l

/-- The date `formatDate` works on: `date.includes("T") ? new Date(date) :
new Date(date + "T00:00:00")`; `none` is an invalid date. -/
def parsedDateOf (date : List Char) : Option YMD :=
  if date.contains 'T' then parseDateTimeChars date
  else parseDateTimeChars (date ++ "T00:00:00".toList)

/-- The `en-us` long month name used by `toLocaleString`. -/
def monthName : Nat → String
  | 1 => "January"
  | 2 => "February"
  | 3 => "March"
  | 4 => "April"
  | 5 => "May"
  | 6 => "June"
  | 7 => "July"
  | 8 => "August"
  | 9 => "September"
  | 10 => "October"
  | 11 => "November"
  | 12 => "December"
  | _ => ""

/-- JavaScript decimal rendering of an integer. -/
def intToStr (i : Int) : String :=
  if i < 0 then "-" ++ Nat.repr i.natAbs else Nat.repr i.natAbs

/-- The `toLocaleString("en-us", { month: "long", day: "numeric", year:
"numeric" })` form. -/
def fullDateStr (d : YMD) : String :=
  monthName d.month ++ " " ++ Nat.repr d.day ++ ", " ++ Nat.repr d.year

/-- `formatDate` (app/portfolio/utils.ts:143).  An invalid date throws, the
catch logs and returns the input unchanged. -/
def formatDate (date : String) (includeRelative : Bool) (now : YMD) : String :=
  match parsedDateOf date.toList with
  | none => date
  | some parsedDate =>
    let yearsAgo : Int := (now.year : Int) - parsedDate.year
    let monthsAgo : Int := (now.month : Int) - parsedDate.month
    let daysAgo : Int := (now.day : Int) - parsedDate.day
    let relativeDate : String :=
      if yearsAgo > 0 then intToStr yearsAgo ++ "y ago"
      else if monthsAgo > 0 then intToStr monthsAgo ++ "mo ago"
      else if daysAgo > 0 then intToStr daysAgo ++ "d ago"
      else "Today"
    let fullDate := fullDateStr parsedDate
    if !includeRelative then fullDate
    else fullDate ++ " (" ++ relativeDate ++ ")"

namespace LibDate

/-- The one-hour TTL of `dateFormatCache` (app/lib/date.ts:4). -/
def DATE_FORMAT_TTL : Nat := 1000 * 60 * 60

/-- The `dateFormatCache` singleton at module load. -/
def dateFormatCache0 : CacheState String := CacheState.mk0 _ DATE_FORMAT_TTL

/-- The cache key `` `date-format:${date}:${includeRelative}` ``. -/
def dateFormatKey (date : String) (includeRelative : Bool) : List Char :=
  "date-format:".toList ++ date.toList ++ ':' ::
    (if includeRelative then "true".toList else "false".toList)

/-- The straight-line part of `formatDate` (app/lib/date.ts) after the cache
probe: parse, format exactly as the portfolio formatter does, store the
result under `key`, return it; an invalid date reaches the catch, which
returns the input unchanged (the cache is not written). -/
def formatCompute (date : String) (includeRelative : Bool) (now : YMD)
    (nowMs : Nat) (key : List Char) (c : CacheState String) :
    String × CacheState String :=
  match parsedDateOf date.toList with
  | none => (date, c)
  | some parsedDate =>
    let yearsAgo : Int := (now.year : Int) - parsedDate.year
    let monthsAgo : Int := (now.month : Int) - parsedDate.month
    let daysAgo : Int := (now.day : Int) - parsedDate.day
    let relativeDate : String :=
      if yearsAgo > 0 then intToStr yearsAgo ++ "y ago"
      else if monthsAgo > 0 then intToStr monthsAgo ++ "mo ago"
      else if daysAgo > 0 then intToStr daysAgo ++ "d ago"
      else "Today"
    let fullDate := fullDateStr parsedDate
    let result :=
      if includeRelative then fullDate ++ " (" ++ relativeDate ++ ")"
      else fullDate
    (result, c.set key result nowMs)

/-- `formatDate` (app/lib/date.ts:15): probe `dateFormatCache` first — the
guard is JavaScript truthiness, so a cached empty string falls through —
then compute, store and return.  `nowMs` is `Date.now()` for the cache;
`now` is the calendar date of the same moment. -/
def formatDate (date : String) (includeRelative : Bool) (now : YMD)
    (nowMs : Nat) (c : CacheState String) : String × CacheState String :=
  let key := dateFormatKey date includeRelative
  match c.get key nowMs with
  | (some cachedDate, c1) =>
    if !cachedDate.isEmpty then (cachedDate, c1)
    else formatCompute date includeRelative now nowMs key c1
  | (none, c1) => formatCompute date includeRelative now nowMs key c1

end LibDate

/-! ## `sortProjectsByDate` -/

/-- The sort key of a record: its `publishedAt` metadata string read as a
date, encoded so that larger means more recent; records without a parseable
date sort last.  (Helper for the spec-modelled sort below.) -/
def dateKeyOf (p : ProjectData) : Nat :=
  match mapGet p.metadata "publishedAt".toList with
  | some (.str s) =>
    match parsedDateOf s with
    | some d => d.year * 10000 + d.month * 100 + d.day
    | none => 0
  | _ => 0

/-- Insert a record into an already descending-sorted list, before the first
record that is not more recent than it (helper for the spec-modelled sort:
an earlier-inserted record stays in front of later records with an equal
date). -/
def insertByDateDesc (p : ProjectData) : List ProjectData → List ProjectData
  | [] => [p]
  | q :: qs =>
    if dateKeyOf q ≤ dateKeyOf p then p :: q :: qs
    else q :: insertByDateDesc p qs

/-- Modelled from the spec: `sortProjectsByDate` lives in
app/lib/mdx/utils.ts, which is not among the provided source files — only
its caller app/components/projects.tsx is.  Per spec §4.3 it is a pure
function returning the records totally ordered by `publishedAt` descending
(most recent first), ties keeping the original order (a stable sort).  A
stable insertion sort on the descending order realises exactly that. -/
def sortProjectsByDate (ps : List ProjectData) : List ProjectData :=
  ps.foldr insertByDateDesc []

/-! ## Helper lemmas -/

theorem length_filterMap_eq_countP {α β : Type} (g : α → Option β) (l : List α) :
    (l.filterMap g).length = l.countP (fun a => (g a).isSome) := by
  induction l with
  | nil => rfl
  | cons a l ih =>
    cases h : g a <;>
      simp [List.filterMap_cons, List.countP_cons, h, ih]

/-! ## C7: the date formatter fails closed -/

/-- C7.  For every input string whose parse yields an invalid date,
`formatDate` returns the original input string completely unchanged (the
error is absorbed by the catch; the function is total, so nothing
propagates); in particular `formatDate "not-a-date"` is `"not-a-date"`. -/
theorem formatDate_fails_closed (s : String) (includeRelative : Bool) (now : YMD)
    (h : parsedDateOf s.toList = none) :
    formatDate s includeRelative now = s ∧
    formatDate "not-a-date" includeRelative now = "not-a-date" := by
  have h' : parsedDateOf s.data = none := h
  have hn : parsedDateOf ("not-a-date" : String).data = none := by decide
  refine ⟨?_, ?_⟩
  · simp [formatDate, h']
  · simp [formatDate, hn]

/-- Witness for C7 at the concrete input `"not-a-date"`. -/
theorem formatDate_fails_closed_witness :
    parsedDateOf "not-a-date".toList = none ∧
    formatDate "not-a-date" false ⟨2023, 1, 15⟩ = "not-a-date" :=
  ⟨by decide, (formatDate_fails_closed "not-a-date" false ⟨2023, 1, 15⟩ (by decide)).1⟩

/-! ## C6: the date formatter's output -/

/-- The relative suffix as the specification words it: calendar-field
subtraction against now — years differing (by a positive amount) reports
`{n}y ago`, else months `{n}mo ago`, else day-of-month `{n}d ago`, else
`Today`. -/
def specRelativeSuffix (now d : YMD) : String :=
  let ydiff : Int := (now.year : Int) - d.year
  let mdiff : Int := (now.month : Int) - d.month
  let ddiff : Int := (now.day : Int) - d.day
  if ydiff > 0 then intToStr ydiff ++ "y ago"
  else if mdiff > 0 then intToStr mdiff ++ "mo ago"
  else if ddiff > 0 then intToStr ddiff ++ "d ago"
  else "Today"

/-- C6.  For every date string parsing to a valid date and every fixed
current moment, `formatDate` returns the locale long-month absolute form,
with — when `includeRelative` is true — the relative suffix of the
calendar-field subtraction rule appended in parentheses; in particular
`formatDate "2023-01-01" true` with now fixed at 2023-01-15 is
`"January 1, 2023 (14d ago)"`. -/
theorem formatDate_output (s : String) (y m d : Nat) (now : YMD) (includeRelative : Bool)
    (h : parsedDateOf s.toList = some ⟨y, m, d⟩) :
    formatDate s includeRelative now =
      fullDateStr ⟨y, m, d⟩ ++
        (if includeRelative then " (" ++ specRelativeSuffix now ⟨y, m, d⟩ ++ ")" else "") ∧
    formatDate "2023-01-01" true ⟨2023, 1, 15⟩ = "January 1, 2023 (14d ago)" ∧
    formatDate "2023-01-01" false ⟨2023, 1, 15⟩ = "January 1, 2023" := by
  have h' : parsedDateOf s.data = some ⟨y, m, d⟩ := h
  refine ⟨?_, by decide, by decide⟩
  cases includeRelative <;> simp [formatDate, h', specRelativeSuffix, String.append_assoc]

/-- Witness for C6 at the spec's example input. -/
theorem formatDate_output_witness :
    parsedDateOf "2023-01-01".toList = some ⟨2023, 1, 1⟩ ∧
    formatDate "2023-01-01" true ⟨2023, 1, 15⟩ =
      fullDateStr ⟨2023, 1, 1⟩ ++ (" (" ++ specRelativeSuffix ⟨2023, 1, 15⟩ ⟨2023, 1, 1⟩ ++ ")") :=
  ⟨by decide, by
    have h := (formatDate_output "2023-01-01" 2023 1 1 ⟨2023, 1, 15⟩ true (by decide)).1
    simpa using h⟩

/-! ## C10: the cached and uncached date formatters agree -/

/-- C10.  On an empty date-format cache (any TTL, hence in particular the
module's one-hour cache), the cached formatter of app/lib/date.ts returns
exactly what the uncached formatter of app/portfolio/utils.ts returns, for
every input string, flag and current moment: the caching layer changes no
output. -/
theorem formatDate_cached_refines_uncached (date : String) (includeRelative : Bool)
    (now : YMD) (nowMs ttl : Nat) :
    (LibDate.formatDate date includeRelative now nowMs (CacheState.mk0 String ttl)).1 =
      formatDate date includeRelative now := by
  cases h : parsedDateOf date.data <;>
    cases includeRelative <;>
      simp [LibDate.formatDate, LibDate.formatCompute, CacheState.get, CacheState.rawGet,
        CacheState.mk0, formatDate, h]

/-! ## C1: partial-failure isolation of the loader -/

/-- C1.  `getMDXData` returns exactly the successfully loaded records of the
enumerated `.mdx` files, in enumeration order (each failing file is skipped:
`filterMap` keeps precisely the successes); its length is the number of
files whose load succeeds; and a directory-enumeration failure yields the
empty list.  The function is total — it never throws. -/
theorem getMDXData_partial_failure (fs : FileSystem) (dir : List Char) :
    getMDXData fs dir = (getMDXFiles fs dir).filterMap (loadOne fs dir) ∧
    (getMDXData fs dir).length =
      (getMDXFiles fs dir).countP (fun f => (loadOne fs dir f).isSome) ∧
    (fs.readdir dir = none → getMDXData fs dir = []) := by
  have key : ∀ (files : List (List Char)) (acc : List ProjectData),
      files.foldl (fun validProjects file =>
        match readMDXFile fs (pathJoin dir file) with
        | .ok parsed =>
            validProjects ++ [⟨parsed.metadata, basenameDrop file (extname file), parsed.content⟩]
        | .error _ => validProjects) acc
      = acc ++ files.filterMap (loadOne fs dir) := by
    intro files
    induction files with
    | nil => simp
    | cons f fl ih =>
      intro acc
      cases h : readMDXFile fs (pathJoin dir f) <;>
        simp [List.filterMap_cons, loadOne, h, ih]
  have h1 : getMDXData fs dir = (getMDXFiles fs dir).filterMap (loadOne fs dir) := by
    simpa [getMDXData] using key (getMDXFiles fs dir) []
  refine ⟨h1, ?_, ?_⟩
  · rw [h1, length_filterMap_eq_countP]
  · intro hnone
    simp [getMDXData, getMDXFiles, hnone]

/-- Witness for C1: a file system whose directory enumeration fails yields
the empty record list, and on a concrete two-good-one-bad directory the
loader returns exactly the successes. -/
theorem getMDXData_partial_failure_witness :
    ((⟨fun _ => none, fun _ => none⟩ : FileSystem).readdir "d".toList = none) ∧
    getMDXData ⟨fun _ => none, fun _ => none⟩ "d".toList = [] :=
  ⟨rfl, (getMDXData_partial_failure ⟨fun _ => none, fun _ => none⟩ "d".toList).2.2 rfl⟩

/-! ## Cache lemmas -/

theorem CacheState.ttl_get {α : Type} (c : CacheState α) (k : List Char) (n : Nat) :
    ((c.get k n).2).ttl = c.ttl := by
  unfold CacheState.get
  cases c.rawGet k with
  | none => rfl
  | some item => dsimp only; split <;> rfl

theorem CacheState.get_set_fresh {α : Type} (c : CacheState α) (k : List Char) (v : α)
    (t0 t1 : Nat) (h : t1 - t0 ≤ c.ttl) :
    (c.set k v t0).get k t1 = (some v, c.set k v t0) := by
  have hfind : ((k, (⟨v, t0⟩ : CacheEntry α)) :: c.entries.filter
      (fun e => e.1 ≠ k)).find? (fun e => e.1 == k) = some (k, ⟨v, t0⟩) :=
    List.find?_cons_of_pos _ (by simp)
  have hle : ¬ (t1 - t0 > c.ttl) := by omega
  simp [CacheState.get, CacheState.rawGet, CacheState.set, hfind, hle]

theorem find?_filterKey_self {β : Type} (l : List (List Char × β)) (k : List Char) :
    (l.filter (fun e => e.1 ≠ k)).find? (fun e => e.1 == k) = none := by
  induction l with
  | nil => rfl
  | cons e l ih =>
    rw [List.filter_cons]
    by_cases h : e.1 = k
    · rw [if_neg (by simp [h])]
      exact ih
    · rw [if_pos (by simp [h]), List.find?_cons_of_neg _ (by simp [h])]
      exact ih

theorem find?_filterKey_other {β : Type} (l : List (List Char × β)) (k k' : List Char)
    (h : k' ≠ k) :
    (l.filter (fun e => e.1 ≠ k)).find? (fun e => e.1 == k') =
      l.find? (fun e => e.1 == k') := by
  induction l with
  | nil => rfl
  | cons e l ih =>
    rw [List.filter_cons]
    by_cases he : e.1 = k
    · rw [if_neg (by simp [he]), List.find?_cons_of_neg _ ?_]
      · exact ih
      · simp [he]
        exact fun hh => h (Eq.symm hh)
    · rw [if_pos (by simp [he])]
      by_cases he' : e.1 = k'
      · rw [List.find?_cons_of_pos _ (by simp [he']),
          List.find?_cons_of_pos _ (by simp [he'])]
      · rw [List.find?_cons_of_neg _ (by simp [he']),
          List.find?_cons_of_neg _ (by simp [he'])]
        exact ih

/-! ## C2: cache-aside correctness of the content service -/

/-- C2.  Starting from a cache with no fresh `all-projects` entry (a spy
starts cold), two consecutive `getCachedProjects` calls within the TTL
window return the same (cached) loader result with the loader invoked
exactly once in total; and immediately after `invalidateCaches`, the next
call invokes the loader exactly once and returns its fresh result. -/
theorem getCachedProjects_cache_aside
    (c : CacheState (List ProjectData)) (bc : CacheState (Option ProjectData))
    (t0 t1 : Nat) (fetch : List ProjectData)
    (hmiss : (c.get PROJECTS_CACHE_KEY t0).1 = none)
    (hwin : t1 - t0 ≤ c.ttl) :
    (getCachedProjects c t0 fetch).1 = fetch ∧
    (getCachedProjects ((getCachedProjects c t0 fetch).2.1) t1 fetch).1 = fetch ∧
    (getCachedProjects c t0 fetch).2.2 +
      (getCachedProjects ((getCachedProjects c t0 fetch).2.1) t1 fetch).2.2 = 1 ∧
    (∀ (t2 : Nat) (fetch2 : List ProjectData),
      (getCachedProjects ((invalidateCaches c bc).1) t2 fetch2).1 = fetch2 ∧
      (getCachedProjects ((invalidateCaches c bc).1) t2 fetch2).2.2 = 1) := by
  rcases hg : c.get PROJECTS_CACHE_KEY t0 with ⟨o, c1⟩
  rw [hg] at hmiss
  subst hmiss
  have h1 : getCachedProjects c t0 fetch = (fetch, c1.set PROJECTS_CACHE_KEY fetch t0, 1) := by
    simp [getCachedProjects, hg]
  have httl : c1.ttl = c.ttl := by
    have := CacheState.ttl_get c PROJECTS_CACHE_KEY t0
    rw [hg] at this
    exact this
  have hfresh : (c1.set PROJECTS_CACHE_KEY fetch t0).get PROJECTS_CACHE_KEY t1 =
      (some fetch, c1.set PROJECTS_CACHE_KEY fetch t0) :=
    CacheState.get_set_fresh c1 _ fetch t0 t1 (by rw [httl]; exact hwin)
  have h2 : getCachedProjects (c1.set PROJECTS_CACHE_KEY fetch t0) t1 fetch =
      (fetch, c1.set PROJECTS_CACHE_KEY fetch t0, 0) := by
    simp [getCachedProjects, hfresh]
  refine ⟨by simp [h1], by simp [h1, h2], by simp [h1, h2], ?_⟩
  intro t2 fetch2
  have hempty : ((invalidateCaches c bc).1).get PROJECTS_CACHE_KEY t2 =
      (none, (invalidateCaches c bc).1) := by
    simp [invalidateCaches, CacheState.clear, CacheState.get, CacheState.rawGet]
  constructor <;> simp [getCachedProjects, hempty]

/-- Witness for C2: the module's fresh five-minute cache, calls at 0 ms and
1 ms, a loader producing the empty record list. -/
theorem getCachedProjects_cache_aside_witness :
    (projectsCache0.get PROJECTS_CACHE_KEY 0).1 = none ∧
    (1 : Nat) - 0 ≤ projectsCache0.ttl ∧
    (getCachedProjects projectsCache0 0 []).1 = [] ∧
    (getCachedProjects ((getCachedProjects projectsCache0 0 []).2.1) 1 []).2.2 +
      (getCachedProjects projectsCache0 0 []).2.2 = 1 := by
  have h := getCachedProjects_cache_aside projectsCache0 projectBySlugCache0 0 1 []
    (by rfl) (by decide)
  exact ⟨by rfl, by decide, h.1, by omega⟩

/-! ## C8: frame effect of invalidation -/

/-- Cache keys built from different slugs differ. -/
theorem projectBySlugKey_inj (s s' : List Char) (h : projectBySlugKey s' = projectBySlugKey s) :
    s' = s := by
  simpa [projectBySlugKey] using h

/-- C8.  `invalidateProjectCache s` removes exactly the by-slug entry of `s`
and the `all-projects` entry: the by-slug entry of every other slug and
every other key of the projects cache are untouched; `invalidateCaches`
empties both caches entirely. -/
theorem invalidateProjectCache_frame
    (pc : CacheState (List ProjectData)) (bc : CacheState (Option ProjectData))
    (s s' : List Char) (hne : s' ≠ s) :
    ((invalidateProjectCache pc bc s).2).rawGet (projectBySlugKey s) = none ∧
    ((invalidateProjectCache pc bc s).1).rawGet PROJECTS_CACHE_KEY = none ∧
    ((invalidateProjectCache pc bc s).2).rawGet (projectBySlugKey s') =
      bc.rawGet (projectBySlugKey s') ∧
    (∀ k : List Char, k ≠ PROJECTS_CACHE_KEY →
      ((invalidateProjectCache pc bc s).1).rawGet k = pc.rawGet k) ∧
    (invalidateCaches pc bc).1.entries = [] ∧
    (invalidateCaches pc bc).2.entries = [] := by
  refine ⟨?_, ?_, ?_, ?_, rfl, rfl⟩
  · show ((bc.del (projectBySlugKey s)).rawGet (projectBySlugKey s)) = none
    unfold CacheState.del CacheState.rawGet
    rw [find?_filterKey_self]
    rfl
  · show ((pc.del PROJECTS_CACHE_KEY).rawGet PROJECTS_CACHE_KEY) = none
    unfold CacheState.del CacheState.rawGet
    rw [find?_filterKey_self]
    rfl
  · have hk : projectBySlugKey s' ≠ projectBySlugKey s :=
      fun h => hne (projectBySlugKey_inj s s' h)
    show ((bc.del (projectBySlugKey s)).rawGet (projectBySlugKey s')) =
      bc.rawGet (projectBySlugKey s')
    unfold CacheState.del CacheState.rawGet
    rw [find?_filterKey_other _ _ _ hk]
  · intro k hk
    show ((pc.del PROJECTS_CACHE_KEY).rawGet k) = pc.rawGet k
    unfold CacheState.del CacheState.rawGet
    rw [find?_filterKey_other _ _ _ hk]

/-- Witness for C8 on concrete caches holding entries for slugs `a` and
`b`: invalidating `a` leaves `b`'s entry readable. -/
theorem invalidateProjectCache_frame_witness :
    (("b".toList : List Char) ≠ "a".toList) ∧
    ((invalidateProjectCache
        ⟨[(PROJECTS_CACHE_KEY, ⟨[], 5⟩)], MDX_CACHE_TTL⟩
        ⟨[(projectBySlugKey "a".toList, ⟨none, 5⟩),
          (projectBySlugKey "b".toList, ⟨none, 7⟩)], MDX_CACHE_TTL⟩
        "a".toList).2).rawGet (projectBySlugKey "b".toList) =
      (⟨[(projectBySlugKey "a".toList, ⟨none, 5⟩),
        (projectBySlugKey "b".toList, ⟨none, 7⟩)], MDX_CACHE_TTL⟩ :
        CacheState (Option ProjectData)).rawGet (projectBySlugKey "b".toList) :=
  ⟨by decide,
    (invalidateProjectCache_frame
      ⟨[(PROJECTS_CACHE_KEY, ⟨[], 5⟩)], MDX_CACHE_TTL⟩
      ⟨[(projectBySlugKey "a".toList, ⟨none, 5⟩),
        (projectBySlugKey "b".toList, ⟨none, 7⟩)], MDX_CACHE_TTL⟩
      "a".toList "b".toList (by decide)).2.2.1⟩

/-! ## C9: slug collisions -/

/-- A record with slug `dup`, loaded first. -/
def dupFirst : ProjectData :=
  ⟨[("title".toList, .str "First".toList),
    ("publishedAt".toList, .str "2023-01-01".toList),
    ("summary".toList, .str "s1".toList)], "dup".toList, "first body".toList⟩

/-- A record with the same slug `dup`, loaded last. -/
def dupLast : ProjectData :=
  ⟨[("title".toList, .str "Last".toList),
    ("publishedAt".toList, .str "2024-01-01".toList),
    ("summary".toList, .str "s2".toList)], "dup".toList, "last body".toList⟩

/-- C9 counterexample.  With two loaded records sharing the slug `dup`, the
`find`-based lookup of `getProjectBySlug` returns the FIRST record with that
slug, not the last: the claimed last-wins semantics is false on this input. -/
theorem getProjectBySlug_not_last_wins :
    dupFirst.slug = "dup".toList ∧ dupLast.slug = "dup".toList ∧
    dupFirst ≠ dupLast ∧
    findProjectBySlug [dupFirst, dupLast] "dup".toList = some dupFirst ∧
    findProjectBySlug [dupFirst, dupLast] "dup".toList ≠ some dupLast := by
  refine ⟨rfl, rfl, by decide, rfl, by decide⟩

/-- C9 as amended.  `getProjectBySlug`'s lookup has first-wins semantics:
it returns the first record carrying the requested slug (earlier records
shadow later ones with the same slug), and `null` when no record carries
it. -/
theorem getProjectBySlug_first_wins (ps₁ ps₂ : List ProjectData) (p : ProjectData)
    (s : List Char) (h₁ : ∀ q ∈ ps₁, q.slug ≠ s) (hp : p.slug = s) :
    findProjectBySlug (ps₁ ++ p :: ps₂) s = some p ∧
    (∀ ps : List ProjectData, (∀ q ∈ ps, q.slug ≠ s) → findProjectBySlug ps s = none) := by
  constructor
  · rw [findProjectBySlug]
    induction ps₁ with
    | nil =>
      rw [List.nil_append]
      exact List.find?_cons_of_pos _ (by simp [hp])
    | cons a l ih =>
      rw [List.cons_append, List.find?_cons_of_neg _ (by simp [h₁ a (by simp)])]
      exact ih (fun q hq => h₁ q (by simp [hq]))
  · intro ps hall
    rw [findProjectBySlug, List.find?_eq_none]
    intro q hq
    simp [hall q hq]

/-- Witness for C9's amended theorem: a non-matching record in front, a
matching one behind it. -/
theorem getProjectBySlug_first_wins_witness :
    (∀ q ∈ [dupFirst], q.slug ≠ "solo".toList) ∧
    (⟨[], "solo".toList, []⟩ : ProjectData).slug = "solo".toList ∧
    findProjectBySlug [dupFirst, ⟨[], "solo".toList, []⟩] "solo".toList =
      some ⟨[], "solo".toList, []⟩ :=
  ⟨by decide, rfl,
    (getProjectBySlug_first_wins [dupFirst] [] ⟨[], "solo".toList, []⟩ "solo".toList
      (by decide) rfl).1⟩

/-! ## C5: the sort contract -/

theorem insertByDateDesc_perm (p : ProjectData) (l : List ProjectData) :
    (insertByDateDesc p l).Perm (p :: l) := by
  induction l with
  | nil => exact List.Perm.refl _
  | cons q qs ih =>
    rw [insertByDateDesc]
    split
    · exact List.Perm.refl _
    · exact (ih.cons q).trans (List.Perm.swap p q qs)

theorem mem_insertByDateDesc {x p : ProjectData} {l : List ProjectData}
    (h : x ∈ insertByDateDesc p l) : x = p ∨ x ∈ l :=
  List.mem_cons.1 ((insertByDateDesc_perm p l).mem_iff.1 h)

theorem insertByDateDesc_pairwise (p : ProjectData) (l : List ProjectData)
    (h : l.Pairwise (fun a b => dateKeyOf b ≤ dateKeyOf a)) :
    (insertByDateDesc p l).Pairwise (fun a b => dateKeyOf b ≤ dateKeyOf a) := by
  induction l with
  | nil => simp [insertByDateDesc]
  | cons q qs ih =>
    rw [insertByDateDesc]
    rcases List.pairwise_cons.1 h with ⟨hq, hqs⟩
    split
    · rename_i hle
      exact List.pairwise_cons.2 ⟨fun x hx => by
        rcases List.mem_cons.1 hx with rfl | hx
        · exact hle
        · exact le_trans (hq x hx) hle, h⟩
    · rename_i hgt
      refine List.pairwise_cons.2 ⟨fun x hx => ?_, ih hqs⟩
      rcases mem_insertByDateDesc hx with rfl | hx
      · exact le_of_not_le hgt
      · exact hq x hx

theorem insertByDateDesc_filter (p : ProjectData) (l : List ProjectData) (k : Nat)
    (h : l.Pairwise (fun a b => dateKeyOf b ≤ dateKeyOf a)) :
    (insertByDateDesc p l).filter (fun r => dateKeyOf r = k) =
      if dateKeyOf p = k then p :: l.filter (fun r => dateKeyOf r = k)
      else l.filter (fun r => dateKeyOf r = k) := by
  induction l with
  | nil =>
    by_cases hp : dateKeyOf p = k <;> simp [insertByDateDesc, hp]
  | cons q qs ih =>
    rcases List.pairwise_cons.1 h with ⟨hq, hqs⟩
    rw [insertByDateDesc]
    split
    · rename_i hle
      by_cases hp : dateKeyOf p = k <;> simp [List.filter_cons, hp]
    · rename_i hgt
      by_cases hp : dateKeyOf p = k
      · by_cases hqk : dateKeyOf q = k
        · exact absurd (le_of_eq (hqk.trans hp.symm)) hgt
        · simp [List.filter_cons, hqk, ih hqs, hp]
      · by_cases hqk : dateKeyOf q = k <;>
          simp [List.filter_cons, hqk, ih hqs, hp]

/-- The spec's three-record example: dated 2022-01-01, inserted first. -/
def rec2022 : ProjectData :=
  ⟨[("publishedAt".toList, .str "2022-01-01".toList)], "a".toList, []⟩

/-- The spec's three-record example: dated 2023-01-01, inserted second. -/
def rec2023a : ProjectData :=
  ⟨[("publishedAt".toList, .str "2023-01-01".toList)], "b".toList, []⟩

/-- The spec's three-record example: dated 2023-01-01, inserted third. -/
def rec2023b : ProjectData :=
  ⟨[("publishedAt".toList, .str "2023-01-01".toList)], "c".toList, []⟩

/-- C5.  `sortProjectsByDate` is a pure function returning a permutation of
its input totally ordered by `publishedAt` descending (pairwise:
every later record's date key is at most every earlier one's); records with
equal dates keep their input order — for every key value, filtering the
output to that key gives exactly the input filtered to that key — and the
spec's concrete example sorts as `[2023-01-01 (first-inserted),
2023-01-01 (second-inserted), 2022-01-01]`. -/
theorem sortProjectsByDate_contract (ps : List ProjectData) :
    (sortProjectsByDate ps).Pairwise (fun a b => dateKeyOf b ≤ dateKeyOf a) ∧
    (∀ k : Nat, (sortProjectsByDate ps).filter (fun r => dateKeyOf r = k) =
      ps.filter (fun r => dateKeyOf r = k)) ∧
    (sortProjectsByDate ps).Perm ps ∧
    sortProjectsByDate [rec2022, rec2023a, rec2023b] = [rec2023a, rec2023b, rec2022] := by
  have hpair : ∀ l : List ProjectData,
      (sortProjectsByDate l).Pairwise (fun a b => dateKeyOf b ≤ dateKeyOf a) := by
    intro l
    induction l with
    | nil => simp [sortProjectsByDate]
    | cons x xs ih => exact insertByDateDesc_pairwise x _ ih
  refine ⟨hpair ps, ?_, ?_, by decide⟩
  · intro k
    induction ps with
    | nil => rfl
    | cons x xs ih =>
      have hstep : sortProjectsByDate (x :: xs) = insertByDateDesc x (sortProjectsByDate xs) :=
        rfl
      rw [hstep, insertByDateDesc_filter x _ k (hpair xs), ih, List.filter_cons]
      by_cases hx : dateKeyOf x = k <;> simp [hx]
  · induction ps with
    | nil => exact List.Perm.refl _
    | cons x xs ih =>
      exact (insertByDateDesc_perm x (sortProjectsByDate xs)).trans (ih.cons x)

/-! ## C3: parser rejection -/

/-- Did the parse succeed (no `MDXParseError` thrown)? -/
def isOkE (e : Except String ParsedMDX) : Bool :=
  match e with
  | .ok _ => true
  | .error _ => false

/-- All three required fields are present and truthy on the extracted
metadata object. -/
def requiredTruthy (d : Metadata) : Prop :=
  (mapGetD d "title".toList).truthy = true ∧
  (mapGetD d "publishedAt".toList).truthy = true ∧
  (mapGetD d "summary".toList).truthy = true

instance (d : Metadata) : Decidable (requiredTruthy d) := by
  unfold requiredTruthy
  infer_instance

/-- A file whose header block has a delimiter pair and all three required
keys present with non-empty value text — but `title: 0` resolves (as YAML)
to the number `0`, which is JavaScript-falsy. -/
def zeroTitleFile : List (List Char) :=
  ["---", "title: 0", "publishedAt: \"2024-01-01\"", "summary: \"s\"", "---", "x"].map
    String.toList

instance : DecidableEq (Except String ParsedMDX) := fun a b =>
  match a, b with
  | .ok x, .ok y =>
    if h : x = y then isTrue (by rw [h]) else isFalse (fun hh => h (Except.ok.inj hh))
  | .error x, .error y =>
    if h : x = y then isTrue (by rw [h]) else isFalse (fun hh => h (Except.error.inj hh))
  | .ok _, .error _ => isFalse (fun hh => Except.noConfusion hh)
  | .error _, .ok _ => isFalse (fun hh => Except.noConfusion hh)

/-- `parseFrontmatter`, written as the one conditional it is. -/
theorem parseFrontmatter_eq (lines : List (List Char)) :
    parseFrontmatter lines =
      if (!(mapGetD (matter lines).data "title".toList).truthy ||
          !(mapGetD (matter lines).data "publishedAt".toList).truthy ||
          !(mapGetD (matter lines).data "summary".toList).truthy) then
        .error "Failed to parse frontmatter: Missing required frontmatter fields (title, publishedAt, or summary)"
      else .ok ⟨(matter lines).data, joinLines (matter lines).content⟩ := rfl

/-- What `parseFrontmatter` returns on a well-formed repository-style file
(used by the C3 witness). -/
def goodFile : List (List Char) :=
  ["---", "title: \"Redis\"", "publishedAt: \"2024-12-05\"", "summary: \"A server\"",
    "---", "body"].map String.toList

/-- The metadata object extracted from `goodFile`. -/
def goodData : Metadata :=
  [("title".toList, .str "Redis".toList),
   ("publishedAt".toList, .str "2024-12-05".toList),
   ("summary".toList, .str "A server".toList)]

/-- A well-formed file whose body carries a trailing blank line (the raw
text ends in a newline, as the repository's content files do). -/
def untrimmedFile : List (List Char) :=
  ["---", "title: a", "publishedAt: b", "summary: c", "---", "Body", ""].map String.toList

/-- C4 counterexample.  `untrimmedFile` is well-formed in the modelled
sense (so the model speaks for the engine on it); the parse succeeds and
the three metadata fields round-trip, but the returned content is the text
following the header block NOT trimmed: it keeps its trailing newline, so
it differs from its own trimmed form. -/
theorem parseFrontmatter_content_not_trimmed :
    wellFormedYaml untrimmedFile = true ∧
    parseFrontmatter untrimmedFile =
      .ok ⟨[("title".toList, .str ['a']), ("publishedAt".toList, .str ['b']),
            ("summary".toList, .str ['c'])], "Body\n".toList⟩ ∧
    trimChars "Body\n".toList ≠ "Body\n".toList := by
  exact ⟨by decide, by decide, by decide⟩

/-- A raw value text the engine reads as a non-empty string exactly as the
model does: a safely quoted scalar with non-empty inside, or a plain
string scalar. -/
def stringValueOk (v : List Char) : Bool :=
  (quotedStrOk (trimChars v) && !((trimChars v).drop 1).dropLast.isEmpty) ||
  plainStringOk (trimChars v)

/-- `yamlScalar`, written as the conditional chain it is. -/
theorem yamlScalar_eq (raw : List Char) :
    yamlScalar raw =
      if isQuoted (trimChars raw) then .str (stripQuotes (trimChars raw))
      else if (trimChars raw).isEmpty || nullSpelling (trimChars raw) then .null
      else if trueSpelling (trimChars raw) then .boolean true
      else if falseSpelling (trimChars raw) then .boolean false
      else
        match charsToInt? (trimChars raw) with
        | some n => .num n
        | none => .str (trimChars raw) := rfl

/-- A string-scalar value resolves to its trimmed, quote-stripped text, and
that text is non-empty. -/
theorem yamlScalar_string (v : List Char) (h : stringValueOk v = true) :
    yamlScalar v = .str (stripQuotes (trimChars v)) ∧ stripQuotes (trimChars v) ≠ [] := by
  unfold stringValueOk at h
  rw [Bool.or_eq_true] at h
  rcases h with h | h
  · rw [Bool.and_eq_true] at h
    rcases h with ⟨hqs, hinner⟩
    have hq : isQuoted (trimChars v) = true := by
      unfold quotedStrOk at hqs
      rw [Bool.and_eq_true] at hqs
      exact hqs.1
    refine ⟨by rw [yamlScalar_eq, if_pos hq], ?_⟩
    rw [stripQuotes, if_pos hq]
    rw [Bool.not_eq_true'] at hinner
    intro hnil
    rw [hnil] at hinner
    exact Bool.noConfusion hinner
  · unfold plainStringOk at h
    simp only [Bool.and_eq_true] at h
    rcases h with ⟨⟨⟨⟨⟨⟨hhead, _⟩, hnl⟩, htr⟩, hfa⟩, hnq⟩, hint⟩
    have hwne : trimChars v ≠ [] := by
      intro hnil
      rw [hnil] at hhead
      exact Bool.noConfusion hhead
    have hqP : ¬ isQuoted (trimChars v) = true := by
      rw [Bool.not_eq_true'] at hnq
      rw [hnq]
      exact Bool.false_ne_true
    have hempty : (trimChars v).isEmpty = false := by
      cases hc : trimChars v with
      | nil => exact absurd hc hwne
      | cons a l => rfl
    have hnl' : nullSpelling (trimChars v) = false := by
      rwa [Bool.not_eq_true'] at hnl
    have htr' : trueSpelling (trimChars v) = false := by
      rwa [Bool.not_eq_true'] at htr
    have hfa' : falseSpelling (trimChars v) = false := by
      rwa [Bool.not_eq_true'] at hfa
    have hint' : charsToInt? (trimChars v) = none := by
      cases hc : charsToInt? (trimChars v) with
      | none => rfl
      | some n => rw [hc] at hint; exact Bool.noConfusion hint
    have hstrip : stripQuotes (trimChars v) = trimChars v := by
      rw [stripQuotes, if_neg hqP]
    constructor
    · rw [yamlScalar_eq, if_neg hqP,
        if_neg (by rw [hempty, hnl']; exact Bool.false_ne_true),
        if_neg (by rw [htr']; exact Bool.false_ne_true),
        if_neg (by rw [hfa']; exact Bool.false_ne_true), hint', hstrip]
    · rw [hstrip]
      exact hwne

theorem splitAtDelim_cons_ne (l : List Char) (rest : List (List Char))
    (h : l ≠ "---".toList) :
    splitAtDelim (l :: rest) =
      match splitAtDelim rest with
      | some (a, b) => some (l :: a, b)
      | none => none := by
  simp only [splitAtDelim]
  rw [if_neg h]

theorem splitAtDelim_cons_delim (rest : List (List Char)) :
    splitAtDelim ("---".toList :: rest) = some ([], rest) := by
  simp [splitAtDelim]

/-- C4 as amended.  For every header block of the three required
`key: value` lines whose values are string scalars in the modelled sense
(`stringValueOk`: safely quoted with non-empty inside, or letter-initial
plain text — the forms js-yaml reads as non-empty strings; unquoted
timestamp-form dates, numbers, and malformed scalars are outside it),
followed by arbitrary body lines, `parseFrontmatter` succeeds with the
three metadata fields equal to the corresponding values after trimming
surrounding whitespace and stripping one layer of matching surrounding
quotes — and with content equal to the text following the header block
exactly as it stands, NOT trimmed. -/
theorem parseFrontmatter_roundtrip_amended
    (tv pv sv : List Char) (body : List (List Char))
    (ht : stringValueOk tv = true) (hp : stringValueOk pv = true)
    (hs : stringValueOk sv = true) :
    parseFrontmatter ("---".toList :: ("title: ".toList ++ tv) ::
        ("publishedAt: ".toList ++ pv) :: ("summary: ".toList ++ sv) ::
        "---".toList :: body)
      = .ok ⟨[("title".toList, .str (stripQuotes (trimChars tv))),
              ("publishedAt".toList, .str (stripQuotes (trimChars pv))),
              ("summary".toList, .str (stripQuotes (trimChars sv)))],
             joinLines body⟩ := by
  obtain ⟨hv1, hn1⟩ := yamlScalar_string tv ht
  obtain ⟨hv2, hn2⟩ := yamlScalar_string pv hp
  obtain ⟨hv3, hn3⟩ := yamlScalar_string sv hs
  have hnc1 : isCommentLine ("title: ".toList ++ tv) = false := by
    simp [isCommentLine, String.toList, List.dropWhile]
  have hnc2 : isCommentLine ("publishedAt: ".toList ++ pv) = false := by
    simp [isCommentLine, String.toList, List.dropWhile]
  have hnc3 : isCommentLine ("summary: ".toList ++ sv) = false := by
    simp [isCommentLine, String.toList, List.dropWhile]
  have hne1 : ("title: ".toList ++ tv) ≠ "---".toList := by simp [String.toList]
  have hne2 : ("publishedAt: ".toList ++ pv) ≠ "---".toList := by simp [String.toList]
  have hne3 : ("summary: ".toList ++ sv) ≠ "---".toList := by simp [String.toList]
  have hsplit : splitAtDelim (("title: ".toList ++ tv) ::
      ("publishedAt: ".toList ++ pv) :: ("summary: ".toList ++ sv) ::
      "---".toList :: body) =
      some ([("title: ".toList ++ tv), ("publishedAt: ".toList ++ pv),
        ("summary: ".toList ++ sv)], body) := by
    rw [splitAtDelim_cons_ne _ _ hne1, splitAtDelim_cons_ne _ _ hne2,
      splitAtDelim_cons_ne _ _ hne3, splitAtDelim_cons_delim]
  have hmatter : matter ("---".toList :: ("title: ".toList ++ tv) ::
      ("publishedAt: ".toList ++ pv) :: ("summary: ".toList ++ sv) ::
      "---".toList :: body) =
      ⟨parseYamlLines [("title: ".toList ++ tv), ("publishedAt: ".toList ++ pv),
        ("summary: ".toList ++ sv)], body⟩ := by
    simp only [matter]
    rw [if_pos trivial, hsplit]
  have hkv1 : splitFirstOn (':' :: [' ']) ("title: ".toList ++ tv) =
      some ("title".toList, tv) := by
    simp [String.toList, splitFirstOn, List.isPrefixOf]
  have hkv2 : splitFirstOn (':' :: [' ']) ("publishedAt: ".toList ++ pv) =
      some ("publishedAt".toList, pv) := by
    simp [String.toList, splitFirstOn, List.isPrefixOf]
  have hkv3 : splitFirstOn (':' :: [' ']) ("summary: ".toList ++ sv) =
      some ("summary".toList, sv) := by
    simp [String.toList, splitFirstOn, List.isPrefixOf]
  have htrk1 : trimChars "title".toList = "title".toList := by decide
  have htrk2 : trimChars "publishedAt".toList = "publishedAt".toList := by decide
  have htrk3 : trimChars "summary".toList = "summary".toList := by decide
  have e1 : mapSet [] (trimChars "title".toList) (yamlScalar tv) =
      [("title".toList, yamlScalar tv)] := by
    rw [htrk1]
    rfl
  have e2 : mapSet [("title".toList, yamlScalar tv)]
      (trimChars "publishedAt".toList) (yamlScalar pv) =
      [("title".toList, yamlScalar tv), ("publishedAt".toList, yamlScalar pv)] := by
    rw [htrk2]
    unfold mapSet
    rw [List.filter_cons_of_pos (by simp), List.filter_nil]
    rfl
  have e3 : mapSet [("title".toList, yamlScalar tv), ("publishedAt".toList, yamlScalar pv)]
      (trimChars "summary".toList) (yamlScalar sv) =
      [("title".toList, yamlScalar tv), ("publishedAt".toList, yamlScalar pv),
        ("summary".toList, yamlScalar sv)] := by
    rw [htrk3]
    unfold mapSet
    rw [List.filter_cons_of_pos (by simp), List.filter_cons_of_pos (by simp),
      List.filter_nil]
    rfl
  have hdata : parseYamlLines [("title: ".toList ++ tv), ("publishedAt: ".toList ++ pv),
      ("summary: ".toList ++ sv)] =
      [("title".toList, .str (stripQuotes (trimChars tv))),
       ("publishedAt".toList, .str (stripQuotes (trimChars pv))),
       ("summary".toList, .str (stripQuotes (trimChars sv)))] := by
    simp only [parseYamlLines, List.foldl]
    rw [hnc1, if_neg Bool.false_ne_true, hkv1]
    dsimp only
    rw [e1, hnc2, if_neg Bool.false_ne_true, hkv2]
    dsimp only
    rw [e2, hnc3, if_neg Bool.false_ne_true, hkv3]
    dsimp only
    rw [e3, hv1, hv2, hv3]
  have hg1 : mapGetD [("title".toList, .str (stripQuotes (trimChars tv))),
      ("publishedAt".toList, .str (stripQuotes (trimChars pv))),
      ("summary".toList, .str (stripQuotes (trimChars sv)))] "title".toList =
      .str (stripQuotes (trimChars tv)) := by
    unfold mapGetD mapGet
    rw [List.find?_cons_of_pos _ (by simp)]
    rfl
  have hg2 : mapGetD [("title".toList, .str (stripQuotes (trimChars tv))),
      ("publishedAt".toList, .str (stripQuotes (trimChars pv))),
      ("summary".toList, .str (stripQuotes (trimChars sv)))] "publishedAt".toList =
      .str (stripQuotes (trimChars pv)) := by
    unfold mapGetD mapGet
    rw [List.find?_cons_of_neg _ (by simp), List.find?_cons_of_pos _ (by simp)]
    rfl
  have hg3 : mapGetD [("title".toList, .str (stripQuotes (trimChars tv))),
      ("publishedAt".toList, .str (stripQuotes (trimChars pv))),
      ("summary".toList, .str (stripQuotes (trimChars sv)))] "summary".toList =
      .str (stripQuotes (trimChars sv)) := by
    unfold mapGetD mapGet
    rw [List.find?_cons_of_neg _ (by simp), List.find?_cons_of_neg _ (by simp),
      List.find?_cons_of_pos _ (by simp)]
    rfl
  have hemp1 : (stripQuotes (trimChars tv)).isEmpty = false := by
    cases hc : stripQuotes (trimChars tv) with
    | nil => exact absurd hc hn1
    | cons a l => rfl
  have hemp2 : (stripQuotes (trimChars pv)).isEmpty = false := by
    cases hc : stripQuotes (trimChars pv) with
    | nil => exact absurd hc hn2
    | cons a l => rfl
  have hemp3 : (stripQuotes (trimChars sv)).isEmpty = false := by
    cases hc : stripQuotes (trimChars sv) with
    | nil => exact absurd hc hn3
    | cons a l => rfl
  rw [parseFrontmatter_eq, hmatter]
  dsimp only
  rw [hdata, hg1, hg2, hg3]
  rw [if_neg (by simp [YamlValue.truthy, hemp1, hemp2, hemp3])]

/-- Witness for C4's amended theorem: a quoted title, a quoted date (the
repository's own content quotes its dates — unquoted they would be engine
timestamps, which `stringValueOk` rejects), a plain-text summary, a
one-line body. -/
theorem parseFrontmatter_roundtrip_amended_witness :
    stringValueOk "\"X\"".toList = true ∧
    stringValueOk "\"2024-01-01\"".toList = true ∧
    stringValueOk " hello there ".toList = true ∧
    stringValueOk "2024-01-01".toList = false ∧
    parseFrontmatter ("---".toList :: ("title: ".toList ++ "\"X\"".toList) ::
        ("publishedAt: ".toList ++ "\"2024-01-01\"".toList) ::
        ("summary: ".toList ++ " hello there ".toList) ::
        "---".toList :: [" body ".toList])
      = .ok ⟨[("title".toList, .str (stripQuotes (trimChars "\"X\"".toList))),
              ("publishedAt".toList, .str (stripQuotes (trimChars "\"2024-01-01\"".toList))),
              ("summary".toList, .str (stripQuotes (trimChars " hello there ".toList)))],
             joinLines [" body ".toList]⟩ :=
  ⟨by decide, by decide, by decide, by decide,
    parseFrontmatter_roundtrip_amended "\"X\"".toList "\"2024-01-01\"".toList
      " hello there ".toList [" body ".toList] (by decide) (by decide) (by decide)⟩

end PersonalSite
